import Mathlib

/-!
# Verification of the CAgentLib core (yukihamada/elio)

Shallow embedding, over `List Nat` byte buffers, of the C sources in
`CAgentLib/src`:

* `agent_string.c`  — UTF-8 validation / boundary scanning, string views;
* `agent_context.c` — arena (bump) allocator with savepoints;
* `agent_json.c`    — recursive-descent JSON parser;
* `agent_parser.c`  — batch and streaming response parsers;
* `agent_orchestrator.c` — the agent run loop.

Machine bytes are modelled as `Nat` (the C code only ever reads bytes, so
values are `< 256` on all real inputs; the definitions do not rely on that).
Pointers are modelled as list indices, string views as byte lists, and the
C out-parameter style as tuples.  Allocation failure (`malloc` returning
null) is not modelled: allocation in the embedding always succeeds.
-/

namespace CAgentLib

/-- ASCII string to byte list (all source-tag literals and test inputs are
ASCII, where `Char.toNat` is exactly the byte value). -/
def asciiBytes (s : String) : List Nat :=
  s.data.map Char.toNat

/-- The whitespace set of C `isspace` (used by `agent_sv_trim`):
space, \t, \n, \v, \f, \r. -/
def isCSpace (b : Nat) : Bool :=
  b == 32 || b == 9 || b == 10 || b == 11 || b == 12 || b == 13

/-- The whitespace set used by the JSON parser's `skip_whitespace` and by the
backward scan in `agent_parser_find_bare_json`: space, \t, \n, \r only. -/
def isJsonWs (b : Nat) : Bool :=
  b == 32 || b == 9 || b == 10 || b == 13

/-- `agent_sv_trim_start`: drop leading `isspace` bytes. -/
def svTrimStart (l : List Nat) : List Nat :=
  l.dropWhile isCSpace

/-- `agent_sv_trim_end`: drop trailing `isspace` bytes. -/
def svTrimEnd (l : List Nat) : List Nat :=
  (l.reverse.dropWhile isCSpace).reverse

/-- `agent_sv_trim`. -/
def svTrim (l : List Nat) : List Nat :=
  svTrimEnd (svTrimStart l)

/-! ## UTF-8 utilities (`agent_string.c`) -/

/-- `agent_utf8_char_length`: expected sequence length from the lead byte,
0 for an invalid lead byte. -/
def utf8CharLength (b : Nat) : Nat :=
  if b < 0x80 then 1
  else if b &&& 0xE0 = 0xC0 then 2
  else if b &&& 0xF0 = 0xE0 then 3
  else if b &&& 0xF8 = 0xF0 then 4
  else 0

/-- `agent_utf8_validate`: strict UTF-8 validation rejecting truncated
sequences, bad continuation bytes, overlong encodings, surrogate code points
and code points above U+10FFFF.  The C loop reads `p[1]`, `p[2]`, `p[3]`
after an explicit bounds check; here `rest.getD i 0` plays `p[1+i]` and the
bounds checks compare `rest.length` (the C `p + k >= end`). -/
def utf8Validate : List Nat → Bool
  | [] => true
  | b :: rest =>
    if b < 0x80 then
      utf8Validate rest
    else if b &&& 0xE0 = 0xC0 then
      if rest.length < 1 then false
      else if rest.getD 0 0 &&& 0xC0 ≠ 0x80 then false
      else if b < 0xC2 then false
      else utf8Validate (rest.drop 1)
    else if b &&& 0xF0 = 0xE0 then
      if rest.length < 2 then false
      else if rest.getD 0 0 &&& 0xC0 ≠ 0x80 then false
      else if rest.getD 1 0 &&& 0xC0 ≠ 0x80 then false
      else
        let cp := ((b &&& 0x0F) <<< 12) ||| ((rest.getD 0 0 &&& 0x3F) <<< 6) |||
                  (rest.getD 1 0 &&& 0x3F)
        if cp < 0x800 then false
        else if 0xD800 ≤ cp ∧ cp ≤ 0xDFFF then false
        else utf8Validate (rest.drop 2)
    else if b &&& 0xF8 = 0xF0 then
      if rest.length < 3 then false
      else if rest.getD 0 0 &&& 0xC0 ≠ 0x80 then false
      else if rest.getD 1 0 &&& 0xC0 ≠ 0x80 then false
      else if rest.getD 2 0 &&& 0xC0 ≠ 0x80 then false
      else
        let cp := ((b &&& 0x07) <<< 18) ||| ((rest.getD 0 0 &&& 0x3F) <<< 12) |||
                  ((rest.getD 1 0 &&& 0x3F) <<< 6) ||| (rest.getD 2 0 &&& 0x3F)
        if cp < 0x10000 ∨ 0x10FFFF < cp then false
        else utf8Validate (rest.drop 3)
    else
      false
termination_by l => l.length
decreasing_by all_goals (simp; try omega)

/-- `agent_utf8_complete_boundary`: scan position advanced by `utf8CharLength`
steps; an invalid lead byte (`char_len == 0`) is stepped over as a single
byte, and the scan stops (`pos + char_len > length`) before an incomplete
trailing sequence. -/
def utf8CompleteBoundary : List Nat → Nat
  | [] => 0
  | b :: rest =>
    let cl := utf8CharLength b
    if cl = 0 then 1 + utf8CompleteBoundary rest
    else if cl ≤ 1 + rest.length then cl + utf8CompleteBoundary (rest.drop (cl - 1))
    else 0
termination_by l => l.length
decreasing_by all_goals (simp; try omega)

theorem utf8CompleteBoundary_le (l : List Nat) : utf8CompleteBoundary l ≤ l.length := by
  match l with
  | [] =>
    rw [utf8CompleteBoundary]
    exact Nat.zero_le _
  | b :: rest =>
    rw [utf8CompleteBoundary]
    split
    · have := utf8CompleteBoundary_le rest
      simp only [List.length_cons]
      omega
    · split
      · have := utf8CompleteBoundary_le (rest.drop (utf8CharLength b - 1))
        simp only [List.length_drop] at this
        simp only [List.length_cons]
        omega
      · exact Nat.zero_le _
termination_by l.length

theorem utf8Validate_take_boundary_aux (n : Nat) :
    ∀ (s t : List Nat), s.length ≤ n → utf8Validate (s ++ t) = true →
      utf8Validate (s.take (utf8CompleteBoundary s)) = true := by
  induction n with
  | zero =>
    intro s t hlen h
    rw [List.length_eq_zero.mp (Nat.le_zero.mp hlen)]
    rw [utf8CompleteBoundary, List.take_nil, utf8Validate]
  | succ n ih =>
    intro s t hlen h
    rcases s with _ | ⟨b, rest⟩
    · rw [utf8CompleteBoundary, List.take_nil, utf8Validate]
    simp only [List.length_cons] at hlen
    rw [utf8CompleteBoundary]
    rw [List.cons_append, utf8Validate] at h
    by_cases hA : b < 0x80
    · -- one-byte scalar
      have hcl : utf8CharLength b = 1 := by simp [utf8CharLength, hA]
      simp only [hcl]
      rw [if_neg (by omega), if_pos (by omega)]
      simp only [Nat.sub_self, List.drop_zero]
      rw [Nat.add_comm 1 (utf8CompleteBoundary rest), List.take_succ_cons, utf8Validate,
        if_pos hA]
      rw [if_pos hA] at h
      exact ih rest t (by omega) h
    · by_cases hB : b &&& 0xE0 = 0xC0
      · -- two-byte scalar
        have hcl : utf8CharLength b = 2 := by simp [utf8CharLength, hA, hB]
        simp only [hcl]
        rw [if_neg (by omega)]
        rcases rest with _ | ⟨b1, rest1⟩
        · rw [if_neg (by simp), List.take_zero, utf8Validate]
        · rw [if_pos (by simp only [List.length_cons]; omega)]
          simp only [show (2 : Nat) - 1 = 1 from rfl, List.drop_succ_cons, List.drop_zero]
          rw [List.cons_append] at h
          rw [if_neg hA, if_pos hB, if_neg (by simp only [List.length_cons]; omega)] at h
          simp only [List.getD_cons_zero, List.drop_succ_cons, List.drop_zero] at h
          by_cases hcont : b1 &&& 0xC0 = 0x80
          · rw [if_neg (by omega)] at h
            by_cases hge : b < 0xC2
            · rw [if_pos hge] at h
              exact absurd h (by decide)
            · rw [if_neg hge] at h
              show utf8Validate
                  (List.take (2 + utf8CompleteBoundary rest1) (b :: b1 :: rest1)) = true
              rw [show 2 + utf8CompleteBoundary rest1 = utf8CompleteBoundary rest1 + 1 + 1
                   from by omega,
                List.take_succ_cons, List.take_succ_cons, utf8Validate]
              rw [if_neg hA, if_pos hB, if_neg (by simp only [List.length_cons]; omega)]
              simp only [List.getD_cons_zero, List.drop_succ_cons, List.drop_zero]
              rw [if_neg (by omega), if_neg hge]
              exact ih rest1 t (by simp only [List.length_cons] at hlen; omega) h
          · rw [if_pos (by omega)] at h
            exact absurd h (by decide)
      · by_cases hC : b &&& 0xF0 = 0xE0
        · -- three-byte scalar
          have hcl : utf8CharLength b = 3 := by simp [utf8CharLength, hA, hB, hC]
          simp only [hcl]
          rw [if_neg (by omega)]
          rcases rest with _ | ⟨b1, _ | ⟨b2, rest2⟩⟩
          · rw [if_neg (by simp), List.take_zero, utf8Validate]
          · rw [if_neg (by simp), List.take_zero, utf8Validate]
          · rw [if_pos (by simp only [List.length_cons]; omega)]
            simp only [show (3 : Nat) - 1 = 2 from rfl, List.drop_succ_cons, List.drop_zero]
            rw [List.cons_append, List.cons_append] at h
            rw [if_neg hA, if_neg hB, if_pos hC,
              if_neg (by simp only [List.length_cons]; omega)] at h
            simp only [List.getD_cons_zero, List.getD_cons_succ,
              List.drop_succ_cons, List.drop_zero] at h
            by_cases hc1 : b1 &&& 0xC0 = 0x80
            · rw [if_neg (by omega)] at h
              by_cases hc2 : b2 &&& 0xC0 = 0x80
              · rw [if_neg (by omega)] at h
                by_cases hcp1 : ((b &&& 0x0F) <<< 12) ||| ((b1 &&& 0x3F) <<< 6) |||
                    (b2 &&& 0x3F) < 0x800
                · rw [if_pos hcp1] at h
                  exact absurd h (by decide)
                · rw [if_neg hcp1] at h
                  by_cases hcp2 : 0xD800 ≤ ((b &&& 0x0F) <<< 12) ||| ((b1 &&& 0x3F) <<< 6) |||
                      (b2 &&& 0x3F) ∧ ((b &&& 0x0F) <<< 12) ||| ((b1 &&& 0x3F) <<< 6) |||
                      (b2 &&& 0x3F) ≤ 0xDFFF
                  · rw [if_pos hcp2] at h
                    exact absurd h (by decide)
                  · rw [if_neg hcp2] at h
                    show utf8Validate (List.take (3 + utf8CompleteBoundary rest2)
                        (b :: b1 :: b2 :: rest2)) = true
                    rw [show 3 + utf8CompleteBoundary rest2 =
                          utf8CompleteBoundary rest2 + 1 + 1 + 1 from by omega,
                      List.take_succ_cons, List.take_succ_cons, List.take_succ_cons,
                      utf8Validate]
                    rw [if_neg hA, if_neg hB, if_pos hC,
                      if_neg (by simp only [List.length_cons]; omega)]
                    simp only [List.getD_cons_zero, List.getD_cons_succ,
                      List.drop_succ_cons, List.drop_zero]
                    rw [if_neg (by omega), if_neg (by omega), if_neg hcp1, if_neg hcp2]
                    exact ih rest2 t (by simp only [List.length_cons] at hlen; omega) h
              · rw [if_pos (by omega)] at h
                exact absurd h (by decide)
            · rw [if_pos (by omega)] at h
              exact absurd h (by decide)
        · by_cases hD : b &&& 0xF8 = 0xF0
          · -- four-byte scalar
            have hcl : utf8CharLength b = 4 := by simp [utf8CharLength, hA, hB, hC, hD]
            simp only [hcl]
            rw [if_neg (by omega)]
            rcases rest with _ | ⟨b1, _ | ⟨b2, _ | ⟨b3, rest3⟩⟩⟩
            · rw [if_neg (by simp), List.take_zero, utf8Validate]
            · rw [if_neg (by simp), List.take_zero, utf8Validate]
            · rw [if_neg (by simp), List.take_zero, utf8Validate]
            · rw [if_pos (by simp only [List.length_cons]; omega)]
              simp only [show (4 : Nat) - 1 = 3 from rfl, List.drop_succ_cons, List.drop_zero]
              rw [List.cons_append, List.cons_append, List.cons_append] at h
              rw [if_neg hA, if_neg hB, if_neg hC, if_pos hD,
                if_neg (by simp only [List.length_cons]; omega)] at h
              simp only [List.getD_cons_zero, List.getD_cons_succ,
                List.drop_succ_cons, List.drop_zero] at h
              by_cases hc1 : b1 &&& 0xC0 = 0x80
              · rw [if_neg (by omega)] at h
                by_cases hc2 : b2 &&& 0xC0 = 0x80
                · rw [if_neg (by omega)] at h
                  by_cases hc3 : b3 &&& 0xC0 = 0x80
                  · rw [if_neg (by omega)] at h
                    by_cases hcp : ((b &&& 0x07) <<< 18) ||| ((b1 &&& 0x3F) <<< 12) |||
                        ((b2 &&& 0x3F) <<< 6) ||| (b3 &&& 0x3F) < 0x10000 ∨
                        0x10FFFF < ((b &&& 0x07) <<< 18) ||| ((b1 &&& 0x3F) <<< 12) |||
                        ((b2 &&& 0x3F) <<< 6) ||| (b3 &&& 0x3F)
                    · rw [if_pos hcp] at h
                      exact absurd h (by decide)
                    · rw [if_neg hcp] at h
                      show utf8Validate (List.take (4 + utf8CompleteBoundary rest3)
                          (b :: b1 :: b2 :: b3 :: rest3)) = true
                      rw [show 4 + utf8CompleteBoundary rest3 =
                            utf8CompleteBoundary rest3 + 1 + 1 + 1 + 1 from by omega,
                        List.take_succ_cons, List.take_succ_cons, List.take_succ_cons,
                        List.take_succ_cons, utf8Validate]
                      rw [if_neg hA, if_neg hB, if_neg hC, if_pos hD,
                        if_neg (by simp only [List.length_cons]; omega)]
                      simp only [List.getD_cons_zero, List.getD_cons_succ,
                        List.drop_succ_cons, List.drop_zero]
                      rw [if_neg (by omega), if_neg (by omega), if_neg (by omega), if_neg hcp]
                      exact ih rest3 t (by simp only [List.length_cons] at hlen; omega) h
                  · rw [if_pos (by omega)] at h
                    exact absurd h (by decide)
                · rw [if_pos (by omega)] at h
                  exact absurd h (by decide)
              · rw [if_pos (by omega)] at h
                exact absurd h (by decide)
          · -- invalid lead byte: an extension cannot validate
            exfalso
            rw [if_neg hA, if_neg hB, if_neg hC, if_neg hD] at h
            exact absurd h (by decide)

theorem utf8Validate_take_boundary (s t : List Nat)
    (h : utf8Validate (s ++ t) = true) :
    utf8Validate (s.take (utf8CompleteBoundary s)) = true :=
  utf8Validate_take_boundary_aux s.length s t (Nat.le_refl _) h

/-- **C4, counterexample.** The claim "the prefix `s[0 .. utf8_complete_boundary(s, k)]`
is either empty or valid UTF-8" fails on the one-byte buffer `s = [0xFF]`, `k = 1`:
the scan counts the invalid lead byte `0xFF` as one byte (`char_len == 0` steps over
it), so the boundary is 1 and the returned prefix `[0xFF]` is nonempty and rejected
by `agent_utf8_validate`. -/
theorem utf8_complete_boundary_invalid_byte_cex :
    utf8CompleteBoundary [0xFF] = 1 ∧
    ¬ (([0xFF] : List Nat).take (utf8CompleteBoundary [0xFF]) = [] ∨
       utf8Validate (([0xFF] : List Nat).take (utf8CompleteBoundary [0xFF])) = true) := by
  have hb : utf8CompleteBoundary [0xFF] = 1 := by
    rw [utf8CompleteBoundary, utf8CompleteBoundary]
    simp +decide [utf8CharLength]
  have hv : utf8Validate [0xFF] = false := by
    rw [utf8Validate]
    simp +decide
  refine ⟨hb, ?_⟩
  rw [hb]
  intro hc
  rcases hc with hc | hc
  · exact absurd hc (by decide)
  · rw [show (([0xFF] : List Nat).take 1) = [0xFF] from rfl, hv] at hc
    exact absurd hc (by decide)

/-- **C4 (amended).** For every byte buffer `s` and length `k` (the buffer passed
to the scan being its first `k` bytes), `utf8_complete_boundary` returns at most
`k`; and whenever the scanned bytes are a prefix of some valid UTF-8 byte
sequence, the prefix `s[0 .. utf8_complete_boundary(s, k)]` is either empty or
valid UTF-8.  (The validity part of the original claim is restricted to buffers
that are prefixes of valid UTF-8: an invalid lead byte is counted into the
prefix by the scan, refuting the unrestricted statement.) -/
theorem utf8_complete_boundary_truncation (s t : List Nat)
    (h : utf8Validate (s ++ t) = true) :
    utf8CompleteBoundary s ≤ s.length ∧
    (s.take (utf8CompleteBoundary s) = [] ∨
     utf8Validate (s.take (utf8CompleteBoundary s)) = true) :=
  ⟨utf8CompleteBoundary_le s, Or.inr (utf8Validate_take_boundary s t h)⟩

theorem utf8_complete_boundary_truncation_witness :
    utf8CompleteBoundary [0x61, 0xC3] ≤ 2 ∧
    (([0x61, 0xC3] : List Nat).take (utf8CompleteBoundary [0x61, 0xC3]) = [] ∨
     utf8Validate (([0x61, 0xC3] : List Nat).take (utf8CompleteBoundary [0x61, 0xC3])) = true) :=
  utf8_complete_boundary_truncation [0x61, 0xC3] [0xA9] (by
    rw [show ([0x61, 0xC3] : List Nat) ++ [0xA9] = [0x61, 0xC3, 0xA9] from rfl]
    rw [utf8Validate]
    rw [if_pos (by norm_num)]
    rw [utf8Validate]
    simp +decide
    rw [utf8Validate])

/-! ## Arena allocator (`agent_context.c`)

The arena is a linked list of blocks; `current_block` always points at the
last block of the chain (blocks are only ever appended at the current block,
and `reset` drops every block but the first), so the chain is modelled as the
first block plus the list of later blocks, the current block being the last.
Block payloads are not modelled: an allocation only moves the `used` offset. -/

/-- `DEFAULT_ARENA_SIZE` (64 KiB). -/
def defaultArenaSize : Nat := 64 * 1024

/-- `align_size`: round up to the 8-byte `ALIGNMENT` (the C
`(size + ALIGNMENT - 1) & ~(ALIGNMENT - 1)`). -/
def alignSize (n : Nat) : Nat := (n + 7) / 8 * 8

structure ArenaBlock where
  size : Nat
  used : Nat
deriving DecidableEq

structure Arena where
  first : ArenaBlock
  restBlocks : List ArenaBlock
  defaultBlockSize : Nat

/-- `arena_block_create`: a fresh block of `max(min_size, DEFAULT_ARENA_SIZE)`
bytes with `used = 0`. -/
def arenaBlockCreate (minSize : Nat) : ArenaBlock :=
  ⟨if minSize > defaultArenaSize then minSize else defaultArenaSize, 0⟩

/-- `agent_context_create`. -/
def arenaCreate (initialSize : Nat) : Arena :=
  let blockSize := if initialSize > 0 then initialSize else defaultArenaSize
  ⟨arenaBlockCreate blockSize, [], blockSize⟩

/-- The block `ctx->current_block` points at (the last block of the chain). -/
def arenaCurrent (a : Arena) : ArenaBlock :=
  a.restBlocks.getLastD a.first

/-- Add `an` to the `used` offset of the last block of a nonempty chain tail. -/
def updateLastUsed : List ArenaBlock → Nat → List ArenaBlock
  | [], _ => []
  | [b], an => [{ b with used := b.used + an }]
  | b :: rest, an => b :: updateLastUsed rest an

/-- Bump the current (= last) block's `used` offset by `an`. -/
def arenaBump (a : Arena) (an : Nat) : Arena :=
  match a.restBlocks with
  | [] => { a with first := { a.first with used := a.first.used + an } }
  | _ :: _ => { a with restBlocks := updateLastUsed a.restBlocks an }

/-- `agent_context_alloc` (state part; the returned pointer is not modelled and
allocation of a fresh block never fails).  `size == 0` returns null without
touching the arena; if the aligned size does not fit in the current block, a
fresh block of `max(aligned, default_block_size)` bytes (itself rounded up by
`arena_block_create`) is appended and becomes current, and the allocation
occupies its first `aligned` bytes. -/
def arenaAlloc (a : Arena) (n : Nat) : Arena :=
  if n = 0 then a
  else
    let an := alignSize n
    let cur := arenaCurrent a
    if cur.size < cur.used + an then
      let newBlockSize := if an > a.defaultBlockSize then an else a.defaultBlockSize
      { a with restBlocks := a.restBlocks ++ [{ arenaBlockCreate newBlockSize with used := an }] }
    else
      arenaBump a an

/-- `agent_context_reset`: free every block but the first, zero its offset. -/
def arenaReset (a : Arena) : Arena :=
  { a with first := { a.first with used := 0 }, restBlocks := [] }

/-- `agent_context_savepoint`: the current block's `used` offset. -/
def arenaSavepoint (a : Arena) : Nat :=
  (arenaCurrent a).used

/-- `agent_context_restore`: rewinds the first block's offset, but only when
the current block is the first block and the savepoint fits in it; otherwise
a no-op (the C comment: "This only works correctly if savepoint was taken on
the first block"). -/
def arenaRestore (a : Arena) (savepoint : Nat) : Arena :=
  if a.restBlocks = [] ∧ savepoint ≤ a.first.size then
    { a with first := { a.first with used := savepoint } }
  else
    a

/-- A sequence of `agent_context_alloc` calls. -/
def arenaAllocMany (a : Arena) : List Nat → Arena
  | [] => a
  | n :: ns => arenaAllocMany (arenaAlloc a n) ns

theorem arenaAlloc_rest_nil (a : Arena) (n : Nat)
    (h : (arenaAlloc a n).restBlocks = []) :
    a.restBlocks = [] ∧ (arenaAlloc a n).first.size = a.first.size := by
  rw [arenaAlloc] at h ⊢
  by_cases h0 : n = 0
  · rw [if_pos h0] at h ⊢
    exact ⟨h, rfl⟩
  · rw [if_neg h0] at h ⊢
    by_cases hsp : (arenaCurrent a).size < (arenaCurrent a).used + alignSize n
    · rw [if_pos hsp] at h
      simp at h
    · rw [if_neg hsp] at h ⊢
      rw [arenaBump] at h ⊢
      match hr : a.restBlocks with
      | [] =>
        exact ⟨rfl, rfl⟩
      | b :: rest =>
        exfalso
        rw [hr] at h
        cases rest <;> simp [updateLastUsed] at h

theorem arenaAllocMany_rest_nil (ns : List Nat) (a : Arena)
    (h : (arenaAllocMany a ns).restBlocks = []) :
    a.restBlocks = [] ∧ (arenaAllocMany a ns).first.size = a.first.size := by
  match ns with
  | [] => exact ⟨h, rfl⟩
  | n :: ns =>
    rw [arenaAllocMany] at h ⊢
    have hstep := arenaAllocMany_rest_nil ns (arenaAlloc a n) h
    have hone := arenaAlloc_rest_nil a n hstep.1
    exact ⟨hone.1, hstep.2.trans hone.2⟩

/-- **C3, counterexample.**  A savepoint taken while the current block is the
*second* block is not restored even though no allocation spills in between:
`create(16)` gives a 64 KiB first block; filling it and allocating 8 more
bytes appends a second block (offset 8); the savepoint is 8; one further
8-byte allocation fits in the second block (no spill — the chain length is
unchanged); `restore(8)` is then a no-op because the current block is not the
first block, leaving the current offset at 16, not 8. -/
theorem arena_restore_second_block_cex :
    (arenaAlloc (arenaAlloc (arenaAlloc (arenaCreate 16) 65536) 8) 8).restBlocks.length =
      (arenaAlloc (arenaAlloc (arenaCreate 16) 65536) 8).restBlocks.length ∧
    arenaSavepoint (arenaAlloc (arenaAlloc (arenaCreate 16) 65536) 8) = 8 ∧
    (arenaCurrent (arenaRestore
        (arenaAlloc (arenaAlloc (arenaAlloc (arenaCreate 16) 65536) 8) 8)
        (arenaSavepoint (arenaAlloc (arenaAlloc (arenaCreate 16) 65536) 8)))).used = 16 := by
  decide

/-- **C3 (amended).**  `sp = savepoint(); alloc(…)*; restore(sp)` rewinds the
current block's offset to `sp` provided the savepoint was taken while the
current block was the *first* block (the only case `agent_context_restore`
handles, per its own comment) and no allocation in between spilled past the
current block's capacity (no new block was appended). -/
theorem arena_savepoint_restore (a : Arena) (ns : List Nat)
    (hwf : a.first.used ≤ a.first.size)
    (hfirst : a.restBlocks = [])
    (hnospill : (arenaAllocMany a ns).restBlocks = []) :
    (arenaCurrent (arenaRestore (arenaAllocMany a ns) (arenaSavepoint a))).used =
      arenaSavepoint a := by
  have hsz := (arenaAllocMany_rest_nil ns a hnospill).2
  have hsp : arenaSavepoint a = a.first.used := by
    rw [arenaSavepoint, arenaCurrent, hfirst]
    rfl
  rw [arenaRestore, if_pos ⟨hnospill, by rw [hsz, hsp]; exact hwf⟩,
    arenaCurrent]
  simp [hnospill]

theorem arena_savepoint_restore_witness :
    (arenaCurrent (arenaRestore
        (arenaAllocMany (arenaAlloc (arenaCreate 0) 8) [8, 16])
        (arenaSavepoint (arenaAlloc (arenaCreate 0) 8)))).used =
      arenaSavepoint (arenaAlloc (arenaCreate 0) 8) :=
  arena_savepoint_restore (arenaAlloc (arenaCreate 0) 8) [8, 16]
    (by decide) (by decide) (by decide)

/-! ## JSON value model and parser (`agent_json.c`)

`agent_json_value_t` is a tagged variant; arena allocation of nodes is not
modelled (values are plain terms).  A `double`-tagged value stores the numeral
text: the IEEE-754 value produced by the C `strtod` is outside this embedding.
The recursive-descent functions take an explicit `fuel` argument (structural
recursion); every `parse_value` entered consumes at least one byte and at most
three nested calls (`parse_value` → `parse_array`/`parse_object` → element
loop) are made per consumed byte, so `3 * length + 3` fuel never runs out on
the top-level entry point. -/

/-- `agent_error_t`. -/
inductive AErr where
  | ok
  | invalidArgument
  | outOfMemory
  | parseError
  | invalidUtf8
  | bufferTooSmall
  | notFound
  | maxIterations
  | callbackFailed
  | cancelled
deriving DecidableEq

/-- `agent_json_value_t`: the tagged variant over null / bool / int64 /
double / string view / array / object.  Object entries preserve insertion
order. -/
inductive JsonVal where
  | null
  | bool (b : Bool)
  | int (i : Int)
  | double (text : List Nat)
  | str (s : List Nat)
  | arr (items : List JsonVal)
  | obj (entries : List (List Nat × JsonVal))

/-- `agent_json_object_get_n`: first entry with a byte-equal key. -/
def objGet (entries : List (List Nat × JsonVal)) (key : List Nat) : Option JsonVal :=
  match entries with
  | [] => none
  | (k, v) :: rest => if k = key then some v else objGet rest key

/-- `agent_json_object_set_n`: replace the first entry with an equal key in
place (keeping the stored key), else append. -/
def objSet (entries : List (List Nat × JsonVal)) (key : List Nat) (v : JsonVal) :
    List (List Nat × JsonVal) :=
  match entries with
  | [] => [(key, v)]
  | (k, w) :: rest => if k = key then (k, v) :: rest else (k, w) :: objSet rest key v

/-- `peek`: the byte at `pos`, `'\0'` past the end (C `peek`). -/
def peek (bytes : List Nat) (pos : Nat) : Nat :=
  bytes.getD pos 0

/-- Leading `skip_whitespace` count of a suffix. -/
def skipWsCount : List Nat → Nat
  | [] => 0
  | b :: r => if isJsonWs b then 1 + skipWsCount r else 0

/-- `skip_whitespace`: first position at or after `pos` holding a
non-whitespace byte (or the end). -/
def skipWs (bytes : List Nat) (pos : Nat) : Nat :=
  pos + skipWsCount (bytes.drop pos)

def isDigit (b : Nat) : Bool :=
  decide (48 ≤ b ∧ b ≤ 57)

/-- Number of consecutive ASCII digits starting at `pos`. -/
def digitCount (bytes : List Nat) (pos : Nat) : Nat :=
  ((bytes.drop pos).takeWhile isDigit).length

/-- One hex digit of a `\uXXXX` escape (the C `0-9 / a-f / A-F` cascade). -/
def hexVal (c : Nat) : Option Nat :=
  if 48 ≤ c ∧ c ≤ 57 then some (c - 48)
  else if 97 ≤ c ∧ c ≤ 102 then some (c - 97 + 10)
  else if 65 ≤ c ∧ c ≤ 70 then some (c - 65 + 10)
  else none

/-- Four hex digits accumulated as in the C loop (`codepoint <<= 4; |=`);
`none` mirrors the `0xFFFFFFFF` sentinel on any invalid digit. -/
def hex4 (a b c d : Nat) : Option Nat :=
  match hexVal a, hexVal b, hexVal c, hexVal d with
  | some v1, some v2, some v3, some v4 =>
    some ((((v1 <<< 4) ||| v2) <<< 4 ||| v3) <<< 4 ||| v4)
  | _, _, _, _ => none

/-- The UTF-8 encoding branches of `parse_string`'s `\u` handler. -/
def encodeUtf8 (cp : Nat) : List Nat :=
  if cp < 0x80 then [cp]
  else if cp < 0x800 then [0xC0 ||| (cp >>> 6), 0x80 ||| (cp &&& 0x3F)]
  else if cp < 0x10000 then
    [0xE0 ||| (cp >>> 12), 0x80 ||| ((cp >>> 6) &&& 0x3F), 0x80 ||| (cp &&& 0x3F)]
  else
    [0xF0 ||| (cp >>> 18), 0x80 ||| ((cp >>> 12) &&& 0x3F),
     0x80 ||| ((cp >>> 6) &&& 0x3F), 0x80 ||| (cp &&& 0x3F)]

/-- The escape-processing loop of `parse_string`, applied to the raw bytes
between the quotes.  A lone trailing backslash is copied verbatim; a short or
invalid `\uXXXX` degrades to a literal `u` (with the would-be hex digits
re-processed as ordinary bytes); a valid one emits the UTF-8 bytes of the code
point (no surrogate-pair joining). -/
def unescape : Nat → List Nat → List Nat
  | 0, _ => []
  | fuel + 1, l =>
    if l.length = 0 then []
    else
      let b := peek l 0
      if b = 92 then
        if l.length = 1 then [92]
        else
          let e := peek l 1
          if e = 34 then 34 :: unescape fuel (l.drop 2)
          else if e = 92 then 92 :: unescape fuel (l.drop 2)
          else if e = 47 then 47 :: unescape fuel (l.drop 2)
          else if e = 98 then 8 :: unescape fuel (l.drop 2)
          else if e = 102 then 12 :: unescape fuel (l.drop 2)
          else if e = 110 then 10 :: unescape fuel (l.drop 2)
          else if e = 114 then 13 :: unescape fuel (l.drop 2)
          else if e = 116 then 9 :: unescape fuel (l.drop 2)
          else if e = 117 then
            if l.length < 6 then 117 :: unescape fuel (l.drop 2)
            else
              (hex4 (peek l 2) (peek l 3) (peek l 4) (peek l 5)).elim
                (117 :: unescape fuel (l.drop 2))
                (fun cp => encodeUtf8 cp ++ unescape fuel (l.drop 6))
          else e :: unescape fuel (l.drop 2)
      else b :: unescape fuel (l.drop 1)

/-- `agent_json_parse` result (the short error message is not modelled). -/
structure JParseResult where
  error : AErr
  errorPos : Nat
  value : Option JsonVal

/-- Parser-internal result: a value with the position after it, or the
position and message of the first error (`set_error` records only the first
error and every C parse function returns immediately afterwards). -/
inductive JRes where
  | ok (v : JsonVal) (pos : Nat)
  | err (pos : Nat) (msg : String)

/-- The scanning loop of `parse_string` after the opening quote: returns the
position of the closing quote and whether an escape was seen; `none` when the
string is unterminated (also when a backslash is the last byte). -/
def scanStr : Nat → List Nat → Nat → Bool → Option (Nat × Bool)
  | 0, _, _, _ => none
  | fuel + 1, bytes, pos, esc =>
    if bytes.length ≤ pos then none
    else if peek bytes pos = 34 then some (pos, esc)
    else if peek bytes pos = 92 then
      if bytes.length ≤ pos + 1 then none
      else scanStr fuel bytes (pos + 2) true
    else scanStr fuel bytes (pos + 1) esc

/-- `parse_string`. -/
def parseString (bytes : List Nat) (pos : Nat) : JRes :=
  if pos < bytes.length ∧ peek bytes pos = 34 then
    match scanStr (bytes.length + 1) bytes (pos + 1) false with
    | some (closePos, hasEsc) =>
      let raw := (bytes.drop (pos + 1)).take (closePos - (pos + 1))
      if hasEsc then .ok (.str (unescape (raw.length + 1) raw)) (closePos + 1)
      else .ok (.str raw) (closePos + 1)
    | none => .err bytes.length "Unterminated string"
  else .err pos "Expected opening quote"

/-- `strtoll` on the digit text produced by `parse_number`: decimal with an
optional leading minus, saturating at the `int64_t` range. -/
def strtollSat (text : List Nat) : Int :=
  let (neg, digits) :=
    match text with
    | 45 :: rest => (true, rest)
    | _ => (false, text)
  let mag : Nat := digits.foldl (fun acc d => acc * 10 + (d - 48)) 0
  let v : Int := if neg then -(mag : Int) else (mag : Int)
  if v < -(2 ^ 63) then -(2 ^ 63)
  else if v > 2 ^ 63 - 1 then 2 ^ 63 - 1
  else v

/-- The position scan of `parse_number`: end position and whether a fraction
or exponent made the literal a double, or the first error. -/
def parseNumberCore (bytes : List Nat) (pos : Nat) : Except (Nat × String) (Nat × Bool) :=
  let p1 := if peek bytes pos = 45 then pos + 1 else pos
  let intEnd : Except (Nat × String) Nat :=
    if peek bytes p1 = 48 then .ok (p1 + 1)
    else if isDigit (peek bytes p1) then .ok (p1 + digitCount bytes p1)
    else .error (p1, "Invalid number")
  match intEnd with
  | .error e => .error e
  | .ok p2 =>
    let fracRes : Except (Nat × String) (Nat × Bool) :=
      if peek bytes p2 = 46 then
        if isDigit (peek bytes (p2 + 1)) then .ok (p2 + 1 + digitCount bytes (p2 + 1), true)
        else .error (p2 + 1, "Expected digit after decimal point")
      else .ok (p2, false)
    match fracRes with
    | .error e => .error e
    | .ok (p3, isd) =>
      if peek bytes p3 = 101 ∨ peek bytes p3 = 69 then
        let p4 := if peek bytes (p3 + 1) = 43 ∨ peek bytes (p3 + 1) = 45 then p3 + 2 else p3 + 1
        if isDigit (peek bytes p4) then .ok (p4 + digitCount bytes p4, true)
        else .error (p4, "Expected digit in exponent")
      else .ok (p3, isd)

/-- `parse_number`: integers go through `strtoll`; doubles keep their text
(the `strtod` value is not modelled). -/
def parseNumber (bytes : List Nat) (pos : Nat) : JRes :=
  match parseNumberCore bytes pos with
  | .error (p, m) => .err p m
  | .ok (pend, isd) =>
    let text := (bytes.drop pos).take (pend - pos)
    if isd then .ok (.double text) pend
    else .ok (.int (strtollSat text)) pend

mutual
/-- `parse_value`. -/
def parseValue (fuel : Nat) (bytes : List Nat) (pos0 : Nat) : JRes :=
  match fuel with
  | 0 => .err pos0 "out of fuel"
  | fuel + 1 =>
    let pos := skipWs bytes pos0
    if bytes.length ≤ pos then .err pos "Unexpected end of input"
    else
      let c := peek bytes pos
      if c = 110 then
        if pos + 4 ≤ bytes.length ∧ (bytes.drop pos).take 4 = asciiBytes "null" then
          .ok .null (pos + 4)
        else .err pos "Unexpected character"
      else if c = 116 then
        if pos + 4 ≤ bytes.length ∧ (bytes.drop pos).take 4 = asciiBytes "true" then
          .ok (.bool true) (pos + 4)
        else .err pos "Unexpected character"
      else if c = 102 then
        if pos + 5 ≤ bytes.length ∧ (bytes.drop pos).take 5 = asciiBytes "false" then
          .ok (.bool false) (pos + 5)
        else .err pos "Unexpected character"
      else if c = 34 then parseString bytes pos
      else if c = 91 then parseArray fuel bytes pos
      else if c = 123 then parseObject fuel bytes pos
      else if c = 45 ∨ (48 ≤ c ∧ c ≤ 57) then parseNumber bytes pos
      else .err pos "Unexpected character"
termination_by structural fuel

/-- `parse_array` (the `match '['`, empty-array check and element loop). -/
def parseArray (fuel : Nat) (bytes : List Nat) (pos : Nat) : JRes :=
  match fuel with
  | 0 => .err pos "out of fuel"
  | fuel + 1 =>
    if pos < bytes.length ∧ peek bytes pos = 91 then
      let p1 := skipWs bytes (pos + 1)
      if p1 < bytes.length ∧ peek bytes p1 = 93 then .ok (.arr []) (p1 + 1)
      else parseArrayElems fuel bytes p1 []
    else .err pos "Expected opening bracket"
termination_by structural fuel

/-- The do-while element loop of `parse_array`. -/
def parseArrayElems (fuel : Nat) (bytes : List Nat) (pos : Nat) (acc : List JsonVal) : JRes :=
  match fuel with
  | 0 => .err pos "out of fuel"
  | fuel + 1 =>
    let p1 := skipWs bytes pos
    match parseValue fuel bytes p1 with
    | .err p m => .err p m
    | .ok v p2 =>
      let acc2 := acc ++ [v]
      let p3 := skipWs bytes p2
      if p3 < bytes.length ∧ peek bytes p3 = 44 then
        parseArrayElems fuel bytes (p3 + 1) acc2
      else if p3 < bytes.length ∧ peek bytes p3 = 93 then
        .ok (.arr acc2) (p3 + 1)
      else .err p3 "Expected comma or closing bracket"
termination_by structural fuel

/-- `parse_object` (the `match` on the opening brace, empty-object check and
entry loop). -/
def parseObject (fuel : Nat) (bytes : List Nat) (pos : Nat) : JRes :=
  match fuel with
  | 0 => .err pos "out of fuel"
  | fuel + 1 =>
    if pos < bytes.length ∧ peek bytes pos = 123 then
      let p1 := skipWs bytes (pos + 1)
      if p1 < bytes.length ∧ peek bytes p1 = 125 then .ok (.obj []) (p1 + 1)
      else parseObjectEntries fuel bytes p1 []
    else .err pos "Expected opening brace"
termination_by structural fuel

/-- The do-while entry loop of `parse_object`: string key, colon, value;
duplicate keys replace in place via `objSet`. -/
def parseObjectEntries (fuel : Nat) (bytes : List Nat) (pos : Nat)
    (acc : List (List Nat × JsonVal)) : JRes :=
  match fuel with
  | 0 => .err pos "out of fuel"
  | fuel + 1 =>
    let p1 := skipWs bytes pos
    if peek bytes p1 ≠ 34 then .err p1 "Expected string key"
    else
      match parseString bytes p1 with
      | .err p m => .err p m
      | .ok kv p2 =>
        let key := match kv with | .str s => s | _ => []
        let p3 := skipWs bytes p2
        if p3 < bytes.length ∧ peek bytes p3 = 58 then
          let p4 := skipWs bytes (p3 + 1)
          match parseValue fuel bytes p4 with
          | .err p m => .err p m
          | .ok v p5 =>
            let acc2 := objSet acc key v
            let p6 := skipWs bytes p5
            if p6 < bytes.length ∧ peek bytes p6 = 44 then
              parseObjectEntries fuel bytes (p6 + 1) acc2
            else if p6 < bytes.length ∧ peek bytes p6 = 125 then
              .ok (.obj acc2) (p6 + 1)
            else .err p6 "Expected comma or closing brace"
        else .err p3 "Expected colon"
termination_by structural fuel
end

/-- `agent_json_parse`: null context or buffer give `invalid_argument`; a
parse failure gives `parse_error` at the recorded position; a complete value
followed by trailing non-whitespace gives `parse_error` at the first trailing
non-whitespace byte. -/
def agentJsonParse (ctxValid : Bool) (json : Option (List Nat)) : JParseResult :=
  if ctxValid then
    match json with
    | none => ⟨.invalidArgument, 0, none⟩
    | some bytes =>
      match parseValue (3 * bytes.length + 3) bytes 0 with
      | .err p _ => ⟨.parseError, p, none⟩
      | .ok v p =>
        let p2 := skipWs bytes p
        if p2 < bytes.length then ⟨.parseError, p2, some v⟩
        else ⟨.ok, p, some v⟩
  else ⟨.invalidArgument, 0, none⟩

/-- `agent_json_parse` with a valid context, as the response parser calls it. -/
def jsonParse (bytes : List Nat) : JParseResult :=
  agentJsonParse true (some bytes)

theorem skipWsCount_stop (l : List Nat) (h : skipWsCount l < l.length) :
    isJsonWs (l.getD (skipWsCount l) 0) = false := by
  induction l with
  | nil => simp [skipWsCount] at h
  | cons b r ih =>
    rw [skipWsCount] at h ⊢
    by_cases hws : isJsonWs b = true
    · rw [if_pos hws] at h ⊢
      rw [Nat.add_comm 1 (skipWsCount r), List.getD_cons_succ]
      simp only [List.length_cons] at h
      exact ih (by omega)
    · rw [if_neg hws] at h ⊢
      rw [List.getD_cons_zero]
      exact Bool.not_eq_true _ |>.mp hws

theorem peek_skipWs (bytes : List Nat) (pos : Nat) (h : skipWs bytes pos < bytes.length) :
    isJsonWs (peek bytes (skipWs bytes pos)) = false := by
  rw [skipWs] at h ⊢
  have hdrop : peek bytes (pos + skipWsCount (bytes.drop pos)) =
      (bytes.drop pos).getD (skipWsCount (bytes.drop pos)) 0 := by
    rw [peek, List.getD_eq_getElem?_getD, List.getD_eq_getElem?_getD, List.getElem?_drop]
  rw [hdrop]
  apply skipWsCount_stop
  simp only [List.length_drop]
  omega

/-- **C9.** `agent_json_parse` error modes: a null context or buffer gives
`invalid_argument`; with non-null inputs the result is `OK` or `parse_error`
and never any other code; a parse failure reports `parse_error` with the
position of the first recorded error (the parser raises at most one error and
returns immediately, so the raise position is the first error's position); and
when `parse_value` succeeds but whitespace-skipping from its end position does
not reach the end of the buffer, the result is `parse_error` positioned at the
first trailing non-whitespace byte. -/
theorem json_parse_error_modes :
    (∀ j, (agentJsonParse false j).error = .invalidArgument) ∧
    ((agentJsonParse true none).error = .invalidArgument) ∧
    (∀ bytes, (jsonParse bytes).error = .ok ∨ (jsonParse bytes).error = .parseError) ∧
    (∀ bytes p m, parseValue (3 * bytes.length + 3) bytes 0 = .err p m →
       (jsonParse bytes).error = .parseError ∧ (jsonParse bytes).errorPos = p) ∧
    (∀ bytes v p, parseValue (3 * bytes.length + 3) bytes 0 = .ok v p →
       skipWs bytes p < bytes.length →
       (jsonParse bytes).error = .parseError ∧
       (jsonParse bytes).errorPos = skipWs bytes p ∧
       isJsonWs (peek bytes (skipWs bytes p)) = false) := by
  refine ⟨fun j => ?_, ?_, fun bytes => ?_, fun bytes p m hpv => ?_,
    fun bytes v p hpv htrail => ?_⟩
  · rw [agentJsonParse.eq_def]
    simp
  · rw [agentJsonParse.eq_def]
    simp
  · rw [jsonParse, agentJsonParse.eq_def]
    simp only [if_pos]
    match hr : parseValue (3 * bytes.length + 3) bytes 0 with
    | .err q msg => right; rfl
    | .ok v q =>
      by_cases ht : skipWs bytes q < bytes.length
      · right
        simp [ht]
      · left
        simp [ht]
  · simp [jsonParse, agentJsonParse.eq_def, hpv]
  · refine ⟨?_, ?_, peek_skipWs bytes p htrail⟩ <;>
      simp [jsonParse, agentJsonParse.eq_def, hpv, htrail]

theorem json_parse_error_modes_witness :
    (jsonParse (asciiBytes "1 x")).error = .parseError ∧
    (jsonParse (asciiBytes "1 x")).errorPos = skipWs (asciiBytes "1 x") 1 ∧
    isJsonWs (peek (asciiBytes "1 x") (skipWs (asciiBytes "1 x") 1)) = false :=
  json_parse_error_modes.2.2.2.2 (asciiBytes "1 x") (.int 1) 1 (by rfl) (by decide)

/-! ## Batch response parser (`agent_parser.c`) -/

/-- The scan loop of `find_substr` starting at offset `i`: first index whose
window of `needle.length` bytes equals the needle. -/
def findSubstrGo (needle : List Nat) : List Nat → Nat → Option Nat
  | [], _ => none
  | b :: rest, i =>
    if needle.length ≤ rest.length + 1 then
      if (b :: rest).take needle.length = needle then some i
      else findSubstrGo needle rest (i + 1)
    else none

/-- `find_substr`, as an index into the haystack (`none` for C's null).
An empty needle matches at offset 0, as in the C code. -/
def findSubstr (hay needle : List Nat) : Option Nat :=
  if needle.length = 0 then some 0
  else findSubstrGo needle hay 0

/-- The depth/string/escape loop of `find_matching_brace`. -/
def fmbGo : List Nat → Int → Bool → Bool → Nat → Option Nat
  | [], _, _, _, _ => none
  | c :: rest, depth, inStr, esc, i =>
    if esc = true then fmbGo rest depth inStr false (i + 1)
    else if c = 92 ∧ inStr = true then fmbGo rest depth inStr true (i + 1)
    else if c = 34 then fmbGo rest depth (!inStr) esc (i + 1)
    else if inStr = false ∧ c = 123 then fmbGo rest (depth + 1) inStr esc (i + 1)
    else if inStr = false ∧ c = 125 then
      if depth - 1 = 0 then some i
      else fmbGo rest (depth - 1) inStr esc (i + 1)
    else fmbGo rest depth inStr esc (i + 1)

/-- `find_matching_brace`: index of the brace matching the opening brace the
buffer must start with, honouring string literals and backslash escapes. -/
def findMatchingBrace (l : List Nat) : Option Nat :=
  match l with
  | [] => none
  | c :: _ => if c = 123 then fmbGo l 0 false false 0 else none

/-- `agent_parsed_tool_call_t` (the `raw_json` view, used by no caller in the
core, is omitted). -/
structure ParsedToolCall where
  name : List Nat
  arguments : JsonVal

/-- `agent_parser_parse_tool_call_json`: parse the bytes as JSON; require an
object with a string-valued `"name"`; a missing `"arguments"` defaults to an
empty object. -/
def parseToolCallJson (body : List Nat) : Option ParsedToolCall :=
  if body.length = 0 then none
  else
    let r := jsonParse body
    if r.error ≠ .ok then none
    else
      match r.value with
      | some (.obj entries) =>
        match objGet entries (asciiBytes "name") with
        | some (.str nm) =>
          some ⟨nm, (objGet entries (asciiBytes "arguments")).getD (.obj [])⟩
        | _ => none
      | _ => none

/-- The backward scan of `agent_parser_find_bare_json`, applied to the
reversed bytes before the `"name"` match: skip the JSON whitespace set; stop
at an opening brace (returning its index in the original buffer — the length
of the unreversed remainder) or at any other byte (`none`). -/
def scanBackWs : List Nat → Option Nat
  | [] => none
  | c :: rest =>
    if c = 123 then some rest.length
    else if c = 32 ∨ c = 9 ∨ c = 10 ∨ c = 13 then scanBackWs rest
    else none

/-- `agent_parser_find_bare_json`: locate the first `"name"` literal, walk
backward over whitespace to an opening brace, find its matching brace, require
an `"arguments"` literal inside the brace range, and parse the range as a tool
call.  Returns the brace range `(start, end)` and the parsed call. -/
def findBareJson (resp : List Nat) : Option (Nat × Nat × ParsedToolCall) :=
  if resp.length = 0 then none
  else
    match findSubstr resp (asciiBytes "\"name\"") with
    | none => none
    | some f =>
      match scanBackWs (resp.take f).reverse with
      | none => none
      | some jstart =>
        match findMatchingBrace (resp.drop jstart) with
        | none => none
        | some rel =>
          let body := (resp.drop jstart).take (rel + 1)
          if (findSubstr body (asciiBytes "\"arguments\"")).isSome then
            match parseToolCallJson body with
            | some tc => some (jstart, jstart + rel, tc)
            | none => none
          else none

/-- `agent_parser_has_incomplete_tool_call`. -/
def hasIncompleteToolCall (resp : List Nat) : Bool :=
  if resp.length = 0 then false
  else
    match findSubstr resp (asciiBytes "<tool_call>") with
    | none => false
    | some o => (findSubstr (resp.drop o) (asciiBytes "</tool_call>")).isNone

/-- `agent_parser_extract_thinking`: the `(thinking, content)` views (both
trimmed except in the no-tag case, where the content is the whole input);
a null view is modelled as the empty list. -/
def extractThinking (resp : List Nat) : List Nat × List Nat :=
  let opened : Option (Nat × Nat × Option Nat × Nat) :=
    match findSubstr resp (asciiBytes "<think>") with
    | some o => some (o, 7, (findSubstr (resp.drop o) (asciiBytes "</think>")).map (o + ·), 8)
    | none =>
      match findSubstr resp (asciiBytes "<thinking>") with
      | some o =>
        some (o, 10, (findSubstr (resp.drop o) (asciiBytes "</thinking>")).map (o + ·), 11)
      | none => none
  match opened with
  | none =>
    match findSubstr resp (asciiBytes "</think>") with
    | some c => (svTrim (resp.take c), svTrim (resp.drop (c + 8)))
    | none =>
      match findSubstr resp (asciiBytes "</thinking>") with
      | some c => (svTrim (resp.take c), svTrim (resp.drop (c + 11)))
      | none => ([], resp)
  | some (o, olen, some cAbs, clen) =>
    (svTrim ((resp.drop (o + olen)).take (cAbs - (o + olen))),
     svTrim (resp.take o ++ resp.drop (cAbs + clen)))
  | some (_, _, none, _) => ([], resp)

/-- `agent_parsed_content_t`: one parsed content segment. -/
inductive Segment where
  | text (t : List Nat)
  | toolCall (name : List Nat) (arguments : JsonVal)
  | thinking (t : List Nat)

/-- The main scan loop of `agent_parser_parse`: framed `<tool_call>` regions
left to right; on the tail without a framed region, the bare-JSON fallback;
text between regions is trimmed and dropped when empty; a region without its
closing tag is dropped together with the rest of the buffer. -/
def parseMainLoop (fuel : Nat) (cur : List Nat) : List Segment :=
  match fuel with
  | 0 => []
  | fuel + 1 =>
    if cur.length = 0 then []
    else
      match findSubstr cur (asciiBytes "<tool_call>") with
      | none =>
        match findBareJson cur with
        | some (s, e, tc) =>
          (let bt := svTrim (cur.take s)
           if bt.length ≠ 0 then [Segment.text bt] else []) ++
          [Segment.toolCall tc.name tc.arguments] ++
          (let aft := svTrim (cur.drop (e + 1))
           if aft.length ≠ 0 then [Segment.text aft] else [])
        | none =>
          let t := svTrim cur
          if t.length ≠ 0 then [Segment.text t] else []
      | some oIdx =>
        let beforeSeg :=
          if 0 < oIdx then
            let t := svTrim (cur.take oIdx)
            if t.length ≠ 0 then [Segment.text t] else []
          else []
        let contentStart := oIdx + 11
        match findSubstr (cur.drop contentStart) (asciiBytes "</tool_call>") with
        | none => beforeSeg
        | some cIdx =>
          let body := (cur.drop contentStart).take cIdx
          let tcSeg :=
            match parseToolCallJson body with
            | some tc => [Segment.toolCall tc.name tc.arguments]
            | none => []
          beforeSeg ++ tcSeg ++ parseMainLoop fuel (cur.drop (contentStart + cIdx + 12))

/-- The trailing pass of `agent_parser_parse`: each text segment containing a
thinking region is replaced by a `thinking` segment followed by the remaining
text (the replacement text is not re-examined, as the C loop skips the
freshly inserted pair). -/
def thinkingPass : List Segment → List Segment
  | [] => []
  | Segment.text t :: rest =>
    let p := extractThinking t
    if p.1.length > 0 then Segment.thinking p.1 :: Segment.text p.2 :: thinkingPass rest
    else Segment.text t :: thinkingPass rest
  | s :: rest => s :: thinkingPass rest

/-- `agent_parser_parse`: the ordered segment list for a complete response
(the growable result array is modelled as a plain list).  Each loop step
advances past a closing tag (at least 23 bytes), so `length + 1` fuel never
runs out. -/
def agentParserParse (resp : List Nat) : List Segment :=
  if resp.length = 0 then []
  else thinkingPass (parseMainLoop (resp.length + 1) resp)

/-- Number of `tool_call` segments in a parse result (the number of
`execute_tool` dispatches the orchestrator will make for it). -/
def toolSegCount (segs : List Segment) : Nat :=
  (segs.filter fun s => match s with | .toolCall _ _ => true | _ => false).length

theorem parseMainLoop_nil (fuel : Nat) : parseMainLoop fuel [] = [] := by
  match fuel with
  | 0 => rfl
  | fuel + 1 => rw [parseMainLoop]; rfl

theorem toolSegCount_nil : toolSegCount [] = 0 := rfl

theorem toolSegCount_cons (s : Segment) (rest : List Segment) :
    toolSegCount (s :: rest) =
      (match s with | .toolCall _ _ => 1 | _ => 0) + toolSegCount rest := by
  match s with
  | .text t => simp [toolSegCount, List.filter_cons]
  | .toolCall n a =>
    simp [toolSegCount, List.filter_cons]
    omega
  | .thinking t => simp [toolSegCount, List.filter_cons]

theorem toolSegCount_thinkingPass (segs : List Segment) :
    toolSegCount (thinkingPass segs) = toolSegCount segs := by
  induction segs with
  | nil => rfl
  | cons s rest ih =>
    match s with
    | .text t =>
      rw [thinkingPass]
      by_cases hp : (extractThinking t).1.length > 0
      · rw [if_pos hp, toolSegCount_cons, toolSegCount_cons, toolSegCount_cons, ih]
        simp
      · rw [if_neg hp, toolSegCount_cons, toolSegCount_cons, ih]
    | .toolCall n a =>
      rw [thinkingPass, toolSegCount_cons, toolSegCount_cons, ih]
      all_goals simp
    | .thinking t =>
      rw [thinkingPass, toolSegCount_cons, toolSegCount_cons, ih]
      all_goals simp

theorem findSubstr_prefix (needle rest : List Nat) (h : needle ≠ []) :
    findSubstr (needle ++ rest) needle = some 0 := by
  rw [findSubstr, if_neg (by simpa using h)]
  match needle, h with
  | n0 :: ntail, _ =>
    rw [List.cons_append, findSubstrGo]
    rw [if_pos (by simp only [List.length_cons, List.length_append]; omega)]
    rw [if_pos (by
      simp only [List.length_cons]
      rw [List.take_succ_cons, List.take_left])]

/-- The emission condition of the amended C7 claim, written from the spec
side: the enclosed bytes parse as a JSON object carrying a string-valued
`"name"` field (an `"arguments"` field is not required). -/
def specFramedEmittable (body : List Nat) : Prop :=
  ∃ entries nm,
    (jsonParse body).error = .ok ∧
    (jsonParse body).value = some (.obj entries) ∧
    objGet entries (asciiBytes "name") = some (.str nm)

theorem parseToolCallJson_isSome_iff (body : List Nat) :
    (parseToolCallJson body).isSome = true ↔ specFramedEmittable body := by
  constructor
  · intro hs
    rw [parseToolCallJson] at hs
    split at hs
    · simp at hs
    · simp only [ne_eq] at hs
      split at hs
      next => simp at hs
      next herr2 =>
        split at hs
        next entries heq =>
          split at hs
          next nm heq2 =>
            exact ⟨entries, nm, not_not.mp herr2, heq, heq2⟩
          next => simp at hs
        next => simp at hs
  · rintro ⟨entries, nm, herr, hv, hn⟩
    have h0 : ¬ body.length = 0 := by
      intro h
      rw [List.length_eq_zero.mp h] at herr
      rw [show (jsonParse []).error = AErr.parseError from rfl] at herr
      exact absurd herr (by decide)
    rw [parseToolCallJson, if_neg h0, if_neg (by rw [herr]; simp), hv]
    simp only [hn, Option.isSome_some]

theorem parse_framed_eq (body : List Nat)
    (hclose : findSubstr (body ++ asciiBytes "</tool_call>") (asciiBytes "</tool_call>") =
      some body.length) :
    agentParserParse (asciiBytes "<tool_call>" ++ body ++ asciiBytes "</tool_call>") =
      match parseToolCallJson body with
      | some tc => [Segment.toolCall tc.name tc.arguments]
      | none => [] := by
  have hne : ¬ ((asciiBytes "<tool_call>" ++ body ++ asciiBytes "</tool_call>").length = 0) := by
    intro h
    rw [List.length_append, List.length_append] at h
    rw [show (asciiBytes "<tool_call>").length = 11 from rfl] at h
    omega
  have hfind : findSubstr (asciiBytes "<tool_call>" ++ body ++ asciiBytes "</tool_call>")
      (asciiBytes "<tool_call>") = some 0 :=
    findSubstr_prefix _ _ (by decide)
  have hdrop11 : (asciiBytes "<tool_call>" ++ body ++ asciiBytes "</tool_call>").drop 11 =
      body ++ asciiBytes "</tool_call>" := by
    rw [show (11 : Nat) = (asciiBytes "<tool_call>").length from rfl, List.append_assoc,
      List.drop_left]
  rw [agentParserParse, if_neg hne, parseMainLoop, if_neg hne, hfind]
  have hdropall : List.drop (11 + body.length + 12)
      (asciiBytes "<tool_call>" ++ body ++ asciiBytes "</tool_call>") = [] := by
    apply List.drop_eq_nil_of_le
    simp [asciiBytes]
    omega
  simp only [Nat.lt_irrefl, if_false, Nat.zero_add, hdrop11, hclose, List.take_left,
    hdropall, parseMainLoop_nil, List.append_nil, List.nil_append]
  match parseToolCallJson body with
  | some tc => rfl
  | none => rfl

/-- C7 (counterexample to the claim as stated): the framed region
`<tool_call>{"name":"t"}</tool_call>` carries a JSON object with a string
`"name"` but no `"arguments"` field at all, yet `agent_parser_parse` still
emits a tool_call segment (with arguments defaulted to the empty object),
contradicting the claimed "if and only if ... both a string-valued name
field and an arguments field". -/
theorem framed_tool_call_no_arguments_cex :
    agentParserParse (asciiBytes "<tool_call>" ++ asciiBytes "\x7b\"name\":\"t\"\x7d" ++
        asciiBytes "</tool_call>") =
      [Segment.toolCall (asciiBytes "t") (JsonVal.obj [])] ∧
    (jsonParse (asciiBytes "\x7b\"name\":\"t\"\x7d")).value =
      some (JsonVal.obj [(asciiBytes "name", JsonVal.str (asciiBytes "t"))]) ∧
    objGet [(asciiBytes "name", JsonVal.str (asciiBytes "t"))] (asciiBytes "arguments") =
      none :=
  ⟨rfl, rfl, rfl⟩

/-- C7 (amended): for a `<tool_call>…</tool_call>` region whose body contains
no earlier occurrence of the closing tag, a tool_call segment is emitted if
and only if the enclosed bytes parse as a JSON object with a string-valued
`"name"` field; an `"arguments"` field is NOT required (a missing one
defaults to the empty object in agent_parser_parse_tool_call_json). -/
theorem framed_region_toolcall_iff (body : List Nat)
    (hclose : findSubstr (body ++ asciiBytes "</tool_call>") (asciiBytes "</tool_call>") =
      some body.length) :
    toolSegCount (agentParserParse
        (asciiBytes "<tool_call>" ++ body ++ asciiBytes "</tool_call>")) = 1 ↔
      specFramedEmittable body := by
  rw [parse_framed_eq body hclose, ← parseToolCallJson_isSome_iff]
  match parseToolCallJson body with
  | some tc => simp [toolSegCount]
  | none => simp [toolSegCount]

theorem framed_region_toolcall_iff_witness :
    toolSegCount (agentParserParse
        (asciiBytes "<tool_call>" ++ asciiBytes "\x7b\"name\":\"u\"\x7d" ++
          asciiBytes "</tool_call>")) = 1 :=
  (framed_region_toolcall_iff (asciiBytes "\x7b\"name\":\"u\"\x7d") (by decide)).mpr
    ⟨[(asciiBytes "name", JsonVal.str (asciiBytes "u"))], asciiBytes "u",
      by decide, by rfl, by rfl⟩

theorem findBareJson_rejected (resp : List Nat)
    (hreject : ∀ f, findSubstr resp (asciiBytes "\"name\"") = some f →
      scanBackWs (resp.take f).reverse = none) :
    findBareJson resp = none := by
  rw [findBareJson]
  by_cases h0 : resp.length = 0
  · rw [if_pos h0]
  · rw [if_neg h0]
    split
    · rfl
    next f hf =>
      rw [hreject f hf]

/-- C6 (counterexample to the claim as stated): in
`x{"name":"t","arguments":{}}` the opening brace found by the backward scan
sits at index 1 and is directly preceded by the non-whitespace byte `x`
(0x78), yet `agent_parser_find_bare_json` accepts the candidate and the parse
emits a tool_call segment: the backward scan stops as soon as it reaches a
brace and never looks at the bytes before it. -/
theorem bare_json_preceded_nonws_cex :
    findBareJson (asciiBytes "x\x7b\"name\":\"t\",\"arguments\":\x7b\x7d\x7d") =
      some (1, 27, ⟨asciiBytes "t", JsonVal.obj []⟩) ∧
    (asciiBytes "x\x7b\"name\":\"t\",\"arguments\":\x7b\x7d\x7d").getD 0 0 = 120 ∧
    ¬ (120 = 32 ∨ 120 = 9 ∨ 120 = 10 ∨ 120 = 13) ∧
    toolSegCount (agentParserParse
      (asciiBytes "x\x7b\"name\":\"t\",\"arguments\":\x7b\x7d\x7d")) = 1 :=
  ⟨rfl, rfl, by decide, rfl⟩

/-- C6 (amended): the backward scan from the `"name"` match rejects the
candidate exactly when it meets a non-whitespace, non-brace byte (or the
buffer start) before any opening brace; when every `"name"` occurrence is
rejected this way, no bare JSON is found and no tool_call segment is emitted.
Bytes preceding an accepted opening brace are never examined (see the
counterexample), so rejection is NOT triggered by non-whitespace before the
brace. -/
theorem bare_json_backward_scan_rejection (resp : List Nat)
    (hnotag : findSubstr resp (asciiBytes "<tool_call>") = none)
    (hreject : ∀ f, findSubstr resp (asciiBytes "\"name\"") = some f →
      scanBackWs (resp.take f).reverse = none) :
    findBareJson resp = none ∧ toolSegCount (agentParserParse resp) = 0 := by
  have hb := findBareJson_rejected resp hreject
  refine ⟨hb, ?_⟩
  rw [agentParserParse]
  by_cases h0 : resp.length = 0
  · rw [if_pos h0]
    rfl
  · rw [if_neg h0, toolSegCount_thinkingPass, parseMainLoop, if_neg h0]
    simp only [hnotag, hb, ne_eq]
    split
    · rfl
    · rfl

theorem bare_json_backward_scan_rejection_witness :
    findBareJson (asciiBytes "say \"name\" loudly") = none ∧
    toolSegCount (agentParserParse (asciiBytes "say \"name\" loudly")) = 0 :=
  bare_json_backward_scan_rejection (asciiBytes "say \"name\" loudly") (by decide)
    (fun f hf => by
      rw [show findSubstr (asciiBytes "say \"name\" loudly") (asciiBytes "\"name\"") =
        some 4 from rfl] at hf
      injection hf with h
      rw [← h]
      decide)

/-- `parser_state_t` of the streaming parser. -/
inductive PState where
  | text | tagOpen | toolCall | think
  deriving DecidableEq

/-- One streaming callback invocation (`on_text` / `on_tool_call` /
`on_thinking`). -/
inductive SEvent where
  | text (t : List Nat)
  | toolCall (name : List Nat) (args : JsonVal)
  | thinking (t : List Nat)

/-- `agent_streaming_parser_t` (the context pointer and the callback
pointers are dropped; callbacks become emitted `SEvent`s). -/
structure SParser where
  state : PState
  buffer : List Nat
  tagBuffer : List Nat
  contentBuffer : List Nat
  inToolCall : Bool
  inThink : Bool

/-- `agent_streaming_parser_init` / `reset`: the zeroed parser in TEXT
state. -/
def sparserInit : SParser := ⟨.text, [], [], [], false, false⟩

/-- `agent_string_cstr` semantics for a byte list: the bytes up to the
first NUL. -/
def cstr (l : List Nat) : List Nat := l.takeWhile (fun b => b ≠ 0)

/-- One iteration of the byte loop of `agent_streaming_parser_feed`:
the parser after consuming `c`, together with the callbacks fired. -/
def feedByte (p : SParser) (c : Nat) : SParser × List SEvent :=
  match p.state with
  | .text =>
    if c = 60 then ({ p with state := .tagOpen, tagBuffer := [c] }, [])
    else ({ p with buffer := p.buffer ++ [c] }, [])
  | .tagOpen =>
    let tb := p.tagBuffer ++ [c]
    if c = 62 then
      let tag := cstr tb
      if tag = asciiBytes "<tool_call>" then
        (⟨.toolCall, [], [], [], true, p.inThink⟩,
         if p.buffer.length > 0 then [SEvent.text p.buffer] else [])
      else if tag = asciiBytes "<think>" ∨ tag = asciiBytes "<thinking>" then
        (⟨.think, [], [], [], p.inToolCall, true⟩,
         if p.buffer.length > 0 then [SEvent.text p.buffer] else [])
      else
        ({ p with state := .text, buffer := p.buffer ++ tag, tagBuffer := [] }, [])
    else if tb.length > 15 then
      ({ p with state := .text, buffer := p.buffer ++ tb, tagBuffer := [] }, [])
    else ({ p with tagBuffer := tb }, [])
  | .toolCall =>
    let cb := p.contentBuffer ++ [c]
    if 12 ≤ cb.length ∧ cb.drop (cb.length - 12) = asciiBytes "</tool_call>" then
      ({ p with contentBuffer := [], state := .text, inToolCall := false },
       match parseToolCallJson (cb.take (cb.length - 12)) with
       | some tc => [SEvent.toolCall tc.name tc.arguments]
       | none => [])
    else ({ p with contentBuffer := cb }, [])
  | .think =>
    let cb := p.contentBuffer ++ [c]
    if 8 ≤ cb.length ∧ cb.drop (cb.length - 8) = asciiBytes "</think>" then
      ({ p with contentBuffer := [], state := .text, inThink := false },
       [SEvent.thinking (cb.take (cb.length - 8))])
    else if 11 ≤ cb.length ∧ cb.drop (cb.length - 11) = asciiBytes "</thinking>" then
      ({ p with contentBuffer := [], state := .text, inThink := false },
       [SEvent.thinking (cb.take (cb.length - 11))])
    else ({ p with contentBuffer := cb }, [])

/-- The byte loop of `agent_streaming_parser_feed`. -/
def feedGo (p : SParser) : List Nat → SParser × List SEvent
  | [] => (p, [])
  | c :: rest =>
    let r1 := feedByte p c
    let r2 := feedGo r1.1 rest
    (r2.1, r1.2 ++ r2.2)

/-- `agent_streaming_parser_feed`: run the byte loop, then emit the text
buffer if the parser ended the call in TEXT state. -/
def feed (p : SParser) (token : List Nat) : SParser × List SEvent :=
  let r := feedGo p token
  if r.1.state = PState.text ∧ r.1.buffer.length > 0 then
    ({ r.1 with buffer := [] }, r.2 ++ [SEvent.text r.1.buffer])
  else r

/-- C8 (counterexample to the claim as stated): feeding `<` followed by 15
non-`>` bytes (16 bytes in all, never exceeding 16) already abandons the
tag buffer: the parser is back in TEXT state and the whole 16-byte
accumulation is flushed as text, because the code abandons as soon as the
tag buffer length exceeds 15. -/
theorem tag_open_abandon_16_cex :
    (feed sparserInit (asciiBytes "<aaaaaaaaaaaaaaa")).1.state = PState.text ∧
    (feed sparserInit (asciiBytes "<aaaaaaaaaaaaaaa")).2 =
      [SEvent.text (asciiBytes "<aaaaaaaaaaaaaaa")] ∧
    (asciiBytes "<aaaaaaaaaaaaaaa").length = 16 ∧
    ¬ ((16 : Nat) > 16) :=
  ⟨rfl, rfl, rfl, by decide⟩

/-- C8 (amended): in TAG_OPEN state, on any byte other than `>`, the tag
buffer is abandoned (flushed after the text buffer, with the parser back in
TEXT state) exactly when the tag buffer including the new byte exceeds 15
bytes — i.e. as soon as it reaches 16 bytes, not 17. -/
theorem tag_open_abandon_iff (p : SParser) (c : Nat)
    (hs : p.state = PState.tagOpen) (hc : ¬ c = 62) :
    ((feedByte p c).1.state = PState.text ↔ p.tagBuffer.length + 1 > 15) ∧
    (p.tagBuffer.length + 1 > 15 →
      (feedByte p c).1.buffer = p.buffer ++ (p.tagBuffer ++ [c]) ∧
      (feedByte p c).1.tagBuffer = []) := by
  simp only [feedByte, hs, if_neg hc, List.length_append, List.length_cons,
    List.length_nil, Nat.zero_add]
  by_cases hl : p.tagBuffer.length + 1 > 15
  · rw [if_pos (by omega)]
    exact ⟨by simp [hl], fun _ => ⟨rfl, rfl⟩⟩
  · rw [if_neg (by omega)]
    refine ⟨?_, fun h => absurd h hl⟩
    constructor
    · intro h
      simp at h
    · intro h
      exact absurd h hl

theorem tag_open_abandon_iff_witness :
    ((feedByte ⟨PState.tagOpen, [], asciiBytes "<aaaaaaaaaaaaaa", [], false, false⟩ 97).1.state =
        PState.text ↔ (asciiBytes "<aaaaaaaaaaaaaa").length + 1 > 15) ∧
    ((asciiBytes "<aaaaaaaaaaaaaa").length + 1 > 15 →
      (feedByte ⟨PState.tagOpen, [], asciiBytes "<aaaaaaaaaaaaaa", [], false, false⟩ 97).1.buffer =
        [] ++ (asciiBytes "<aaaaaaaaaaaaaa" ++ [97]) ∧
      (feedByte ⟨PState.tagOpen, [], asciiBytes "<aaaaaaaaaaaaaa", [], false, false⟩ 97).1.tagBuffer = []) :=
  tag_open_abandon_iff ⟨PState.tagOpen, [], asciiBytes "<aaaaaaaaaaaaaa", [], false, false⟩ 97
    rfl (by decide)

/-- `agent_role_t`. -/
inductive ARole where
  | user | assistant | system | tool
deriving DecidableEq

/-- `agent_step_t`. -/
inductive AStep where
  | none | thinking | callingTool | waitingForResult | generating
deriving DecidableEq

/-- `agent_tool_call_t` (the uuid is dropped; the name view is a byte
list). -/
structure ToolCallRec where
  name : List Nat
  arguments : JsonVal

/-- `agent_tool_result_t` (uuids dropped). -/
structure ToolResultRec where
  content : List Nat
  isError : Bool

/-- `agent_message_t` (uuid, timestamp and image data dropped; null views
become empty lists). -/
structure AMessage where
  role : ARole
  content : List Nat
  thinking : List Nat
  toolCalls : List ToolCallRec
  toolResults : List ToolResultRec

/-- `agent_llm_result_t`: the generate callback's outcome; `text` is the
response streamed into `current_response`. -/
structure GenResult where
  error : AErr
  text : List Nat

/-- `agent_tool_execute_result_t`. -/
structure ExecResult where
  error : AErr
  content : List Nat
  isError : Bool

/-- The orchestration-relevant part of `agent_config_t`. -/
structure AConfig where
  maxIterations : Nat
  maxToolResultLen : Nat

/-- The orchestration-relevant part of `agent_state_t` (the arena context,
streaming parser, transient response buffer and stop flag are dropped). -/
structure AgentState where
  messages : List AMessage
  workingHistory : List AMessage
  iterationCount : Nat
  currentStep : AStep
  isProcessing : Bool
  thinkingContent : List Nat
  config : AConfig

/-- `agent_truncate_text` on NUL-free byte lists (`strlen` equals the list
length); mirrors the C for `max_len ≥ 3`, the only way it is reached from
`agent_execute_tool` given the non-zero default. -/
def agentTruncateText (text : List Nat) (maxLen : Nat) : List Nat :=
  if text.length ≤ maxLen then text
  else utf8CompleteBoundary (text.take (maxLen - 3)) |> text.take |> (· ++ asciiBytes "...")

/-- `agent_execute_tool` with the execute callback as an oracle (uuid and
step notifications dropped): the result content is truncated to
`max_tool_result_len` with a `"..."` marker at a UTF-8 boundary. -/
def agentExecuteTool (ex : List Nat → JsonVal → ExecResult) (maxToolResultLen : Nat)
    (tc : ToolCallRec) : ToolResultRec :=
  let er := ex tc.name tc.arguments
  ⟨if er.content.length > maxToolResultLen then agentTruncateText er.content maxToolResultLen
    else er.content,
   er.isError⟩

/-- The mutable locals of the segment loop in `process_iteration`. -/
structure SegOut where
  textC : List Nat
  thinkC : List Nat
  hasTC : Bool
  acc : List ToolCallRec
  wh : List AMessage

/-- The segment loop of `process_iteration`: text segments are appended to
`text_content` with a trailing space, thinking segments accumulate into the
state's thinking buffer, tool_call segments are recorded, executed, and
answered with a tool message in working history. -/
def processSegs (ex : List Nat → JsonVal → ExecResult) (m : Nat) :
    List Segment → SegOut → SegOut
  | [], o => o
  | .text t :: rest, o => processSegs ex m rest { o with textC := o.textC ++ t ++ [32] }
  | .thinking t :: rest, o => processSegs ex m rest { o with thinkC := o.thinkC ++ t }
  | .toolCall n a :: rest, o =>
    let r := agentExecuteTool ex m ⟨n, a⟩
    processSegs ex m rest
      { o with
          hasTC := true
          acc := o.acc ++ [(⟨n, a⟩ : ToolCallRec)]
          wh := o.wh ++ [⟨ARole.tool, r.content, [], [], [r]⟩] }

/-- The outcome of one `process_iteration` / of the run loop: the updated
state, the accumulated tool calls (`all_tool_calls`), the `has_tool_call`
flag, and the error. -/
structure IterOut where
  st : AgentState
  acc : List ToolCallRec
  hasTC : Bool
  err : AErr

/-- `process_iteration` for a generator outcome `gr` (cancellation, arena
exhaustion and the token callback are not modelled): parse the streamed
response, process the segments, and append an assistant message to working
history unless the iteration produced tool calls and no text; its tool_calls
field holds only the latest accumulated call. -/
def processIteration (gr : GenResult) (ex : List Nat → JsonVal → ExecResult)
    (st : AgentState) (acc : List ToolCallRec) : IterOut :=
  if gr.error ≠ AErr.ok then ⟨st, acc, false, gr.error⟩
  else
    let o := processSegs ex st.config.maxToolResultLen (agentParserParse gr.text)
      ⟨[], st.thinkingContent, false, acc, st.workingHistory⟩
    let wh1 :=
      if o.textC.length > 0 ∨ o.hasTC = false then
        o.wh ++ [⟨ARole.assistant, o.textC,
          if o.thinkC.length > 0 then o.thinkC else [],
          if o.hasTC then [o.acc.getLastD ⟨[], JsonVal.null⟩] else [], []⟩]
      else o.wh
    ⟨{ st with workingHistory := wh1, thinkingContent := o.thinkC }, o.acc, o.hasTC, AErr.ok⟩

/-- The main loop of `agent_run_streaming`: while `has_tool_call` and the
iteration count is below `max_iterations`, bump the count and run an
iteration, breaking on error.  The fuel only bounds the recursion; it is
passed as `max_iterations`, which the guard makes exact. -/
def runLoop (g : Nat → GenResult) (ex : List Nat → JsonVal → ExecResult)
    (fuel : Nat) (st : AgentState) (acc : List ToolCallRec) (hasTC : Bool) : IterOut :=
  match fuel with
  | 0 => ⟨st, acc, hasTC, AErr.ok⟩
  | fuel + 1 =>
    if hasTC ∧ st.iterationCount < st.config.maxIterations then
      let r := processIteration (g st.iterationCount) ex
        { st with iterationCount := st.iterationCount + 1 } acc
      if r.err ≠ AErr.ok then r
      else runLoop g ex fuel r.st r.acc r.hasTC
    else ⟨st, acc, hasTC, AErr.ok⟩

/-- `agent_run_result_t` (error message and uuids dropped). -/
structure RunResult where
  error : AErr
  response : List Nat
  toolCalls : List ToolCallRec
  thinking : List Nat
  iterations : Nat

/-- The backward search for the last assistant message in working history;
an absent one leaves the zero-initialised (empty) response view. -/
def lastAssistantContent (msgs : List AMessage) : List Nat :=
  match msgs.reverse.find? (fun m => decide (m.role = ARole.assistant)) with
  | some m => m.content
  | none => []

/-- `agent_run_streaming` (= `agent_run`): early return when already
processing; otherwise reset iteration state, copy messages into working
history, run the loop, overwrite the error with max_iterations when the
cap was hit with a pending tool call, build the result from the last
assistant message, and append the final message to the permanent
transcript only when the response is nonempty. -/
def agentRun (g : Nat → GenResult) (ex : List Nat → JsonVal → ExecResult)
    (st : AgentState) : RunResult × AgentState :=
  if st.isProcessing = true then (⟨AErr.invalidArgument, [], [], [], 0⟩, st)
  else
    let st1 :=
      { st with
          isProcessing := true
          iterationCount := 0
          thinkingContent := []
          workingHistory := st.messages }
    let r := runLoop g ex st1.config.maxIterations st1 [] true
    let err := if r.hasTC = true ∧ r.st.config.maxIterations ≤ r.st.iterationCount
      then AErr.maxIterations else r.err
    let isOk := err = AErr.ok ∨ err = AErr.maxIterations
    let response := if isOk then lastAssistantContent r.st.workingHistory else []
    let toolCalls := if isOk then r.acc else []
    let thinking := if isOk ∧ r.st.thinkingContent.length > 0 then r.st.thinkingContent else []
    let messages1 := if response.length > 0
      then r.st.messages ++ [⟨ARole.assistant, response, thinking, toolCalls, []⟩]
      else r.st.messages
    (⟨err, response, toolCalls, thinking, r.st.iterationCount⟩,
     { r.st with messages := messages1, isProcessing := false, currentStep := AStep.none })

theorem processSegs_spec (ex : List Nat → JsonVal → ExecResult) (m : Nat)
    (segs : List Segment) : ∀ o : SegOut,
    (processSegs ex m segs o).hasTC = (o.hasTC || decide (0 < toolSegCount segs)) ∧
    (processSegs ex m segs o).acc.length = o.acc.length + toolSegCount segs := by
  induction segs with
  | nil =>
    intro o
    rw [processSegs, toolSegCount_nil]
    simp
  | cons s rest ih =>
    intro o
    match s with
    | .text t =>
      rw [processSegs, toolSegCount_cons]
      obtain ⟨h1, h2⟩ := ih { o with textC := o.textC ++ t ++ [32] }
      exact ⟨by rw [h1]; simp, by rw [h2]; simp⟩
    | .thinking t =>
      rw [processSegs, toolSegCount_cons]
      obtain ⟨h1, h2⟩ := ih { o with thinkC := o.thinkC ++ t }
      exact ⟨by rw [h1]; simp, by rw [h2]; simp⟩
    | .toolCall n a =>
      rw [processSegs, toolSegCount_cons]
      obtain ⟨h1, h2⟩ := ih
        { o with
            hasTC := true
            acc := o.acc ++ [(⟨n, a⟩ : ToolCallRec)]
            wh := o.wh ++ [⟨ARole.tool, (agentExecuteTool ex m ⟨n, a⟩).content, [], [],
              [agentExecuteTool ex m ⟨n, a⟩]⟩] }
      refine ⟨by rw [h1]; simp, by rw [h2]; simp; omega⟩

theorem processIteration_messages (gr : GenResult) (ex : List Nat → JsonVal → ExecResult)
    (st : AgentState) (acc : List ToolCallRec) :
    (processIteration gr ex st acc).st.messages = st.messages := by
  rw [processIteration]
  split
  · rfl
  · rfl

theorem processIteration_spec (gr : GenResult) (ex : List Nat → JsonVal → ExecResult)
    (st : AgentState) (acc : List ToolCallRec) (hok : gr.error = AErr.ok) :
    (processIteration gr ex st acc).err = AErr.ok ∧
    (processIteration gr ex st acc).st.iterationCount = st.iterationCount ∧
    (processIteration gr ex st acc).st.config = st.config ∧
    (processIteration gr ex st acc).hasTC =
      decide (0 < toolSegCount (agentParserParse gr.text)) ∧
    (processIteration gr ex st acc).acc.length =
      acc.length + toolSegCount (agentParserParse gr.text) := by
  rw [processIteration, if_neg (by simp [hok])]
  obtain ⟨h1, h2⟩ := processSegs_spec ex st.config.maxToolResultLen (agentParserParse gr.text)
    ⟨[], st.thinkingContent, false, acc, st.workingHistory⟩
  refine ⟨rfl, rfl, rfl, ?_, ?_⟩
  · exact h1.trans (by simp)
  · exact h2

theorem runLoop_messages (g : Nat → GenResult) (ex : List Nat → JsonVal → ExecResult) :
    ∀ (fuel : Nat) (st : AgentState) (acc : List ToolCallRec) (hasTC : Bool),
    (runLoop g ex fuel st acc hasTC).st.messages = st.messages := by
  intro fuel
  induction fuel with
  | zero => intro st acc hasTC; rfl
  | succ fuel ih =>
    intro st acc hasTC
    rw [runLoop]
    split
    · simp only [ne_eq]
      split
      · rw [processIteration_messages]
      · rw [ih, processIteration_messages]
    · rfl

theorem runLoop_all_tool (g : Nat → GenResult) (ex : List Nat → JsonVal → ExecResult) :
    ∀ (fuel : Nat) (st : AgentState) (acc : List ToolCallRec),
    st.config.maxIterations = st.iterationCount + fuel →
    (∀ k, st.iterationCount ≤ k → k < st.config.maxIterations →
      (g k).error = AErr.ok ∧ toolSegCount (agentParserParse (g k).text) = 1) →
    (runLoop g ex fuel st acc true).st.iterationCount = st.config.maxIterations ∧
    (runLoop g ex fuel st acc true).st.config = st.config ∧
    (runLoop g ex fuel st acc true).hasTC = true ∧
    (runLoop g ex fuel st acc true).err = AErr.ok ∧
    (runLoop g ex fuel st acc true).acc.length = acc.length + fuel := by
  intro fuel
  induction fuel with
  | zero =>
    intro st acc hmax _
    refine ⟨?_, rfl, rfl, rfl, ?_⟩
    · show st.iterationCount = st.config.maxIterations
      omega
    · show acc.length = acc.length + 0
      omega
  | succ fuel ih =>
    intro st acc hmax hg
    obtain ⟨hge, hgc⟩ := hg st.iterationCount (Nat.le_refl _) (by omega)
    have hp := processIteration_spec (g st.iterationCount) ex
      { st with iterationCount := st.iterationCount + 1 } acc hge
    obtain ⟨hperr, hpcount, hpconfig, hptc, hpacc⟩ := hp
    rw [runLoop, if_pos ⟨rfl, by omega⟩]
    simp only [ne_eq, hperr, not_true_eq_false, if_false]
    have htc : (processIteration (g st.iterationCount) ex
        { st with iterationCount := st.iterationCount + 1 } acc).hasTC = true := by
      rw [hptc, hgc]
      simp
    rw [htc]
    have hcount : (processIteration (g st.iterationCount) ex
        { st with iterationCount := st.iterationCount + 1 } acc).st.iterationCount =
        st.iterationCount + 1 := hpcount
    have hconf : (processIteration (g st.iterationCount) ex
        { st with iterationCount := st.iterationCount + 1 } acc).st.config = st.config :=
      hpconfig
    obtain ⟨i1, i2, i3, i4, i5⟩ := ih
      (processIteration (g st.iterationCount) ex
        { st with iterationCount := st.iterationCount + 1 } acc).st
      (processIteration (g st.iterationCount) ex
        { st with iterationCount := st.iterationCount + 1 } acc).acc
      (by rw [hcount, hconf]; omega)
      (by
        rw [hcount, hconf]
        intro k hk1 hk2
        exact hg k (by omega) hk2)
    refine ⟨?_, ?_, i3, i4, ?_⟩
    · rw [i1, hconf]
    · rw [i2, hconf]
    · rw [i5, hpacc, hgc]
      omega

/-- C1: with both callbacks total (modelled as oracle functions) and every
generator response up to the cap a well-formed framed tool call (one
tool_call segment, generation succeeding), agent_run ends with error
max_iterations after exactly max_iterations iterations and exactly
max_iterations executed tool calls. -/
theorem agent_run_iteration_cap (g : Nat → GenResult) (ex : List Nat → JsonVal → ExecResult)
    (st : AgentState) (hp : st.isProcessing = false)
    (hg : ∀ k, k < st.config.maxIterations →
      (g k).error = AErr.ok ∧ toolSegCount (agentParserParse (g k).text) = 1) :
    (agentRun g ex st).1.error = AErr.maxIterations ∧
    (agentRun g ex st).1.iterations = st.config.maxIterations ∧
    (agentRun g ex st).1.toolCalls.length = st.config.maxIterations := by
  rw [agentRun, if_neg (by simp [hp])]
  obtain ⟨e1, e2, e3, e4, e5⟩ := runLoop_all_tool g ex
    ({ st with
        isProcessing := true
        iterationCount := 0
        thinkingContent := []
        workingHistory := st.messages } : AgentState).config.maxIterations
    { st with
        isProcessing := true
        iterationCount := 0
        thinkingContent := []
        workingHistory := st.messages }
    []
    (by simp)
    (fun k _ hk => hg k hk)
  simp only [] at e1 e2 e3 e4 e5
  simp only [e1, e2, e3, e4]
  rw [if_pos (by simp)]
  refine ⟨rfl, trivial, ?_⟩
  rw [if_pos (Or.inr rfl)]
  exact e5.trans (by simp)

set_option maxHeartbeats 2000000 in
theorem agent_run_iteration_cap_witness :
    (agentRun (fun _ => ⟨AErr.ok, asciiBytes "<tool_call>\x7b\"name\":\"t\"\x7d</tool_call>"⟩)
        (fun _ _ => ⟨AErr.ok, [], false⟩)
        ⟨[], [], 0, AStep.none, false, [], ⟨2, 100⟩⟩).1.error = AErr.maxIterations ∧
    (agentRun (fun _ => ⟨AErr.ok, asciiBytes "<tool_call>\x7b\"name\":\"t\"\x7d</tool_call>"⟩)
        (fun _ _ => ⟨AErr.ok, [], false⟩)
        ⟨[], [], 0, AStep.none, false, [], ⟨2, 100⟩⟩).1.iterations = 2 ∧
    (agentRun (fun _ => ⟨AErr.ok, asciiBytes "<tool_call>\x7b\"name\":\"t\"\x7d</tool_call>"⟩)
        (fun _ _ => ⟨AErr.ok, [], false⟩)
        ⟨[], [], 0, AStep.none, false, [], ⟨2, 100⟩⟩).1.toolCalls.length = 2 :=
  agent_run_iteration_cap
    (fun _ => ⟨AErr.ok, asciiBytes "<tool_call>\x7b\"name\":\"t\"\x7d</tool_call>"⟩)
    (fun _ _ => ⟨AErr.ok, [], false⟩)
    ⟨[], [], 0, AStep.none, false, [], ⟨2, 100⟩⟩
    rfl
    (fun k _ => ⟨rfl, by
      show toolSegCount (agentParserParse
        (asciiBytes "<tool_call>\x7b\"name\":\"t\"\x7d</tool_call>")) = 1
      decide⟩)

/-- C2 (counterexample to the claim as stated): a run that finishes its loop
with error ok but whose final assistant message has empty content produces an
empty response, and NO final message is appended to the permanent transcript
(the append at the end of agent_run_streaming is guarded by
`result.response.length > 0`). -/
theorem agent_run_no_final_message_cex :
    (agentRun (fun _ => ⟨AErr.ok, []⟩) (fun _ _ => ⟨AErr.ok, [], false⟩)
        ⟨[⟨ARole.user, asciiBytes "hi", [], [], []⟩], [], 0, AStep.none, false, [],
          ⟨4, 100⟩⟩).1.error = AErr.ok ∧
    (agentRun (fun _ => ⟨AErr.ok, []⟩) (fun _ _ => ⟨AErr.ok, [], false⟩)
        ⟨[⟨ARole.user, asciiBytes "hi", [], [], []⟩], [], 0, AStep.none, false, [],
          ⟨4, 100⟩⟩).1.response = [] ∧
    (agentRun (fun _ => ⟨AErr.ok, []⟩) (fun _ _ => ⟨AErr.ok, [], false⟩)
        ⟨[⟨ARole.user, asciiBytes "hi", [], [], []⟩], [], 0, AStep.none, false, [],
          ⟨4, 100⟩⟩).2.messages = [⟨ARole.user, asciiBytes "hi", [], [], []⟩] :=
  ⟨rfl, rfl, rfl⟩

/-- C2 (amended): when the run ends with error ok or max_iterations, the
response is the content of the last assistant message in working history; the
final message carrying the response, the accumulated tool calls and the
thinking is appended to the permanent transcript only when the response is
nonempty — for an empty response the transcript is left unchanged. -/
theorem agent_run_final_message (g : Nat → GenResult) (ex : List Nat → JsonVal → ExecResult)
    (st : AgentState) (hp : st.isProcessing = false) :
    ((agentRun g ex st).1.error = AErr.ok ∨ (agentRun g ex st).1.error = AErr.maxIterations →
      (agentRun g ex st).1.response = lastAssistantContent (agentRun g ex st).2.workingHistory) ∧
    ((agentRun g ex st).1.response ≠ [] →
      (agentRun g ex st).2.messages = st.messages ++
        [⟨ARole.assistant, (agentRun g ex st).1.response, (agentRun g ex st).1.thinking,
          (agentRun g ex st).1.toolCalls, []⟩]) ∧
    ((agentRun g ex st).1.response = [] → (agentRun g ex st).2.messages = st.messages) := by
  rw [agentRun, if_neg (by simp [hp])]
  have hmsg := runLoop_messages g ex
    ({ st with
        isProcessing := true
        iterationCount := 0
        thinkingContent := []
        workingHistory := st.messages } : AgentState).config.maxIterations
    { st with
        isProcessing := true
        iterationCount := 0
        thinkingContent := []
        workingHistory := st.messages }
    []
    true
  simp only [] at hmsg
  simp only []
  refine ⟨?_, ?_, ?_⟩
  · intro h
    rw [if_pos h]
  · intro hne
    rw [if_pos (List.length_pos.mpr hne), hmsg]
  · intro he
    rw [if_neg (by rw [he]; simp), hmsg]

/-- C10: calling agent_run on a state already mid-run (is_processing set)
returns invalid_argument immediately and leaves the whole state — permanent
transcript, working history, iteration count and current step — unchanged. -/
theorem agent_run_already_processing (g : Nat → GenResult)
    (ex : List Nat → JsonVal → ExecResult) (st : AgentState)
    (hp : st.isProcessing = true) :
    (agentRun g ex st).1.error = AErr.invalidArgument ∧ (agentRun g ex st).2 = st := by
  rw [agentRun, if_pos hp]
  exact ⟨rfl, rfl⟩

theorem agent_run_already_processing_witness :
    (agentRun (fun _ => ⟨AErr.ok, []⟩) (fun _ _ => ⟨AErr.ok, [], false⟩)
        ⟨[], [], 3, AStep.generating, true, [], ⟨2, 100⟩⟩).1.error = AErr.invalidArgument ∧
    (agentRun (fun _ => ⟨AErr.ok, []⟩) (fun _ _ => ⟨AErr.ok, [], false⟩)
        ⟨[], [], 3, AStep.generating, true, [], ⟨2, 100⟩⟩).2 =
      ⟨[], [], 3, AStep.generating, true, [], ⟨2, 100⟩⟩ :=
  agent_run_already_processing (fun _ => ⟨AErr.ok, []⟩) (fun _ _ => ⟨AErr.ok, [], false⟩)
    ⟨[], [], 3, AStep.generating, true, [], ⟨2, 100⟩⟩ rfl

theorem agent_run_final_message_witness :
    ((agentRun (fun _ => ⟨AErr.ok, asciiBytes "hello"⟩) (fun _ _ => ⟨AErr.ok, [], false⟩)
          ⟨[], [], 0, AStep.none, false, [], ⟨2, 100⟩⟩).1.error = AErr.ok ∨
        (agentRun (fun _ => ⟨AErr.ok, asciiBytes "hello"⟩) (fun _ _ => ⟨AErr.ok, [], false⟩)
          ⟨[], [], 0, AStep.none, false, [], ⟨2, 100⟩⟩).1.error = AErr.maxIterations →
      (agentRun (fun _ => ⟨AErr.ok, asciiBytes "hello"⟩) (fun _ _ => ⟨AErr.ok, [], false⟩)
          ⟨[], [], 0, AStep.none, false, [], ⟨2, 100⟩⟩).1.response =
        lastAssistantContent (agentRun (fun _ => ⟨AErr.ok, asciiBytes "hello"⟩)
          (fun _ _ => ⟨AErr.ok, [], false⟩)
          ⟨[], [], 0, AStep.none, false, [], ⟨2, 100⟩⟩).2.workingHistory) ∧
    ((agentRun (fun _ => ⟨AErr.ok, asciiBytes "hello"⟩) (fun _ _ => ⟨AErr.ok, [], false⟩)
          ⟨[], [], 0, AStep.none, false, [], ⟨2, 100⟩⟩).1.response ≠ [] →
      (agentRun (fun _ => ⟨AErr.ok, asciiBytes "hello"⟩) (fun _ _ => ⟨AErr.ok, [], false⟩)
          ⟨[], [], 0, AStep.none, false, [], ⟨2, 100⟩⟩).2.messages = [] ++
        [⟨ARole.assistant,
          (agentRun (fun _ => ⟨AErr.ok, asciiBytes "hello"⟩) (fun _ _ => ⟨AErr.ok, [], false⟩)
            ⟨[], [], 0, AStep.none, false, [], ⟨2, 100⟩⟩).1.response,
          (agentRun (fun _ => ⟨AErr.ok, asciiBytes "hello"⟩) (fun _ _ => ⟨AErr.ok, [], false⟩)
            ⟨[], [], 0, AStep.none, false, [], ⟨2, 100⟩⟩).1.thinking,
          (agentRun (fun _ => ⟨AErr.ok, asciiBytes "hello"⟩) (fun _ _ => ⟨AErr.ok, [], false⟩)
            ⟨[], [], 0, AStep.none, false, [], ⟨2, 100⟩⟩).1.toolCalls, []⟩]) ∧
    ((agentRun (fun _ => ⟨AErr.ok, asciiBytes "hello"⟩) (fun _ _ => ⟨AErr.ok, [], false⟩)
          ⟨[], [], 0, AStep.none, false, [], ⟨2, 100⟩⟩).1.response = [] →
      (agentRun (fun _ => ⟨AErr.ok, asciiBytes "hello"⟩) (fun _ _ => ⟨AErr.ok, [], false⟩)
          ⟨[], [], 0, AStep.none, false, [], ⟨2, 100⟩⟩).2.messages = []) :=
  agent_run_final_message (fun _ => ⟨AErr.ok, asciiBytes "hello"⟩)
    (fun _ _ => ⟨AErr.ok, [], false⟩)
    ⟨[], [], 0, AStep.none, false, [], ⟨2, 100⟩⟩ rfl
